import Mathlib

/-!
Shallow embedding of the bookstore application (src/app.js) and proofs about
its CSV/spreadsheet ingestion pipeline, record store and search index.

Modelling conventions:
* JavaScript strings are Lean `String`s (operated on through `String.data`).
* JavaScript numbers are exact rationals (`ℚ`); the NaN value is `none` in
  `Option ℚ`.  Binary floating point is not observable in any of the
  properties proved here: all concrete values stay well inside the range
  where decimal literals, division by 4000 and 2-decimal fixed formatting
  agree between `ℚ` and IEEE doubles.
* A value that may be `undefined` is an `Option`.
* DOM, file and network effects are passed in explicitly (for example the
  result of the bootstrap `fetch` is an `Option String`).
-/

namespace BooksApp

/-! ## JavaScript string primitives -/

/-- Whitespace recognised by `String.prototype.trim` (ASCII part plus NBSP;
the remaining Unicode space code points never occur in this development). -/
def isJsWs (c : Char) : Bool :=
  c == ' ' || c == '\t' || c == '\n' || c == '\r' || c == '\x0B' || c == '\x0C' || c == ' '

/-- Character-list version of `String.prototype.trim`. -/
def jsTrimL (l : List Char) : List Char :=
  ((l.dropWhile isJsWs).reverse.dropWhile isJsWs).reverse

/-- Model of `String.prototype.trim`. -/
def jsTrim (s : String) : String :=
  String.mk (jsTrimL s.data)

/-- Model of `String.prototype.toLowerCase` (ASCII; the header aliases the
program compares against are all ASCII). -/
def jsToLower (s : String) : String :=
  String.mk (s.data.map Char.toLower)

/-- Model of `text.split(/\r?\n/)`: split at each `'\n'`, additionally
consuming a `'\r'` that immediately precedes it. -/
def splitLinesL : List Char → List (List Char)
  | [] => [[]]
  | '\r' :: '\n' :: t => [] :: splitLinesL t
  | '\n' :: t => [] :: splitLinesL t
  | c :: t =>
    match splitLinesL t with
    | [] => [[c]]
    | l :: ls => (c :: l) :: ls

/-- String-level `split(/\r?\n/)`. -/
def jsSplitLines (s : String) : List String :=
  (splitLinesL s.data).map String.mk

/-! ## Numeric primitives -/

def digitVal (c : Char) : ℕ := c.toNat - 48

def digitsVal (l : List Char) : ℕ :=
  l.foldl (fun a c => 10 * a + digitVal c) 0

/-- Exact rational arithmetic helpers.  They compute the same values as the
field operations of `ℚ` but are phrased through `mkRat`/`Rat.divInt`, which
normalize and reduce definitionally, so that every concrete run of the model
can be checked by `decide`. -/
def ratOfNat (n : ℕ) : ℚ := mkRat (Int.ofNat n) 1

def ratMul (a b : ℚ) : ℚ := Rat.divInt (a.num * b.num) ((a.den : ℤ) * (b.den : ℤ))

def ratAdd (a b : ℚ) : ℚ :=
  Rat.divInt (a.num * (b.den : ℤ) + b.num * (a.den : ℤ)) ((a.den : ℤ) * (b.den : ℤ))

/-- Exact division; only ever used with a nonzero divisor (the constant
`RATE = 4000` and powers of ten). -/
def ratDiv (a b : ℚ) : ℚ := Rat.divInt (a.num * (b.den : ℤ)) (b.num * (a.den : ℤ))

def ratAbs (q : ℚ) : ℚ := if q.num < 0 then Rat.neg q else q

def isHexDigitCh (c : Char) : Bool :=
  c.isDigit || ('a' ≤ c && c ≤ 'f') || ('A' ≤ c && c ≤ 'F')

def hexVal (c : Char) : ℕ :=
  if c.isDigit then c.toNat - 48
  else if 'a' ≤ c && c ≤ 'f' then c.toNat - 87
  else c.toNat - 55

/-- Fractional part contributed by the digit list after a decimal point. -/
def fracPart (frac : List Char) : ℚ :=
  mkRat (Int.ofNat (digitsVal frac)) (10 ^ frac.length)

/-- Multiply by a (possibly negative) power of ten. -/
def applyExp (q : ℚ) (e : ℤ) : ℚ :=
  if 0 ≤ e then ratMul q (ratOfNat (10 ^ e.toNat)) else ratDiv q (ratOfNat (10 ^ (-e).toNat))

/-- Exponent suffix of an ECMAScript decimal literal; the whole remainder of
the string must be consumed, otherwise the literal is invalid (`none`). -/
def parseExpPart : List Char → Option ℤ
  | [] => some 0
  | c :: r =>
    if c == 'e' || c == 'E' then
      let sr : ℤ × List Char :=
        match r with
        | '+' :: t => (1, t)
        | '-' :: t => (-1, t)
        | _ => (1, r)
      let ds := sr.2.span Char.isDigit
      if ds.1.isEmpty || !ds.2.isEmpty then none else some (sr.1 * (digitsVal ds.1 : ℤ))
    else none

/-- Unsigned ECMAScript decimal literal (`digits`, `digits.digits`,
`.digits`, each with an optional exponent); the full list must match. -/
def parseUnsignedDec (l : List Char) : Option ℚ :=
  let w := l.span Char.isDigit
  match w.2 with
  | '.' :: r2 =>
    let f := r2.span Char.isDigit
    if w.1.isEmpty && f.1.isEmpty then none
    else (parseExpPart f.2).map (fun e => applyExp (ratAdd (ratOfNat (digitsVal w.1)) (fracPart f.1)) e)
  | _ =>
    if w.1.isEmpty then none
    else (parseExpPart w.2).map (fun e => applyExp (ratOfNat (digitsVal w.1)) e)

def jsNumBody (l : List Char) (neg : Bool) : Option ℚ :=
  if l = "Infinity".data then none
  else (parseUnsignedDec l).map (fun q => if neg then Rat.neg q else q)

def jsNumSigned (l : List Char) : Option ℚ :=
  match l with
  | '+' :: t => jsNumBody t false
  | '-' :: t => jsNumBody t true
  | _ => jsNumBody l false

def jsNumCore (l : List Char) : Option ℚ :=
  match l with
  | '0' :: c :: rest =>
    if c == 'x' || c == 'X' then
      if !rest.isEmpty && rest.all isHexDigitCh
      then some (ratOfNat (rest.foldl (fun a d => 16 * a + hexVal d) 0)) else none
    else if c == 'o' || c == 'O' then
      if !rest.isEmpty && rest.all (fun d => '0' ≤ d && d ≤ '7')
      then some (ratOfNat (rest.foldl (fun a d => 8 * a + digitVal d) 0)) else none
    else if c == 'b' || c == 'B' then
      if !rest.isEmpty && rest.all (fun d => d == '0' || d == '1')
      then some (ratOfNat (rest.foldl (fun a d => 2 * a + digitVal d) 0)) else none
    else jsNumSigned l
  | _ => jsNumSigned l

/-- Model of ECMAScript `ToNumber` on strings (the implicit coercion in
`cleanCurrency(...) / RATE` and the explicit `Number(...)` calls).  The
whitespace-trimmed empty string is `0`; `none` stands for NaN.  Signed and
unsigned `Infinity` is also mapped to `none`: every consumer in this program
pipes the value through `formatUSD`, which renders non-finite values and NaN
alike as the empty string. -/
def jsNumber (s : String) : Option ℚ :=
  let t := jsTrimL s.data
  if t.isEmpty then some (ratOfNat 0) else jsNumCore t

/-- Model of `parseFloat` restricted to its use in `formatUSD`: the argument
has already been filtered to the alphabet `[0-9.-]`, so no whitespace or
exponent marker can occur; `parseFloat` takes the longest numeric prefix and
is NaN (`none`) when no digit is consumed. -/
def jsParseFloatStripped (l : List Char) : Option ℚ :=
  let sl : Bool × List Char :=
    match l with
    | '-' :: t => (true, t)
    | _ => (false, l)
  let w := sl.2.span Char.isDigit
  let frac : List Char :=
    match w.2 with
    | '.' :: r2 => (r2.span Char.isDigit).1
    | _ => []
  if w.1.isEmpty && frac.isEmpty then none
  else
    let v := ratAdd (ratOfNat (digitsVal w.1)) (fracPart frac)
    some (if sl.1 then Rat.neg v else v)

def digChar (d : ℕ) : Char := Char.ofNat (48 + d)

/-- Big-endian decimal digits of `n`; the first argument is fuel (any value
`≥ n` is enough, the callers pass `n` itself). -/
def natDigitsAux : ℕ → ℕ → List Char
  | 0, _ => []
  | fuel + 1, n => if n = 0 then [] else natDigitsAux fuel (n / 10) ++ [digChar (n % 10)]

/-- Decimal rendering of a natural number. -/
def natStr (n : ℕ) : String :=
  if n = 0 then "0" else String.mk (natDigitsAux n n)

/-- Two-digit zero-padded rendering (used for the cents part). -/
def pad2 (n : ℕ) : String :=
  if n < 10 then "0" ++ natStr n else natStr n

/-- Round the magnitude of `q` to a whole number of hundredths, ties going
up (ECMAScript `toFixed` picks the larger candidate): `⌊|q| * 100 + 1/2⌋`. -/
def cents (q : ℚ) : ℕ :=
  (Rat.floor (ratAdd (ratMul (ratAbs q) (ratOfNat 100)) (mkRat 1 2))).toNat

/-- Model of `Number.prototype.toFixed(2)`: the sign of the argument followed
by the magnitude rounded to the nearest hundredth. -/
def toFixed2 (q : ℚ) : String :=
  (if q.num < 0 then "-" else "") ++ natStr (cents q / 100) ++ "." ++ pad2 (cents q % 100)

/-! ## Currency normalizer (src/app.js lines 147-155) -/

/-- One left-to-right pass of `.replace(/KHR/ig, '')`. -/
def removeKHR : List Char → List Char
  | [] => []
  | [c] => [c]
  | [c1, c2] => [c1, c2]
  | c1 :: c2 :: c3 :: t =>
    if (c1 == 'K' || c1 == 'k') && (c2 == 'H' || c2 == 'h') && (c3 == 'R' || c3 == 'r')
    then removeKHR t
    else c1 :: removeKHR (c2 :: c3 :: t)

/-- Model of `cleanCurrency` (lines 147-150): `undefined`/`null` to the empty
string, otherwise drop `"` characters, drop `KHR` case-insensitively, drop
commas, then trim. -/
def cleanCurrency : Option String → String
  | none => ""
  | some s =>
    jsTrim (String.mk ((removeKHR (s.data.filter (fun c => c != '"'))).filter (fun c => c != ',')))

/-- Characters kept by `String(v).replace(/[^0-9.-]/g, '')`. -/
def stripUSDChar (c : Char) : Bool :=
  c.isDigit || c == '.' || c == '-'

/-- The string branch of `formatUSD` (lines 151-155). -/
def formatUSDStr (s : String) : String :=
  match jsParseFloatStripped (s.data.filter stripUSDChar) with
  | none => ""
  | some q => toFixed2 q

/-- The number branch of `formatUSD`.  In JavaScript the number is first
stringified and restripped; for NaN this yields the empty string and for the
finite values arising in this program (plain decimal renderings) it is the
identity, so the branch reduces to `toFixed2`. -/
def formatUSDNum : Option ℚ → String
  | none => ""
  | some q => toFixed2 q

/-- A JavaScript value that is either a string or a number, the two shapes
`formatUSD` receives at its call sites (the `undefined` guard on line 152 is
unreachable from those call sites because each `||` chain ends in a string). -/
inductive StrOrNum where
  | str (v : String)
  | num (v : Option ℚ)

/-- Model of `formatUSD` on its actual input shapes. -/
def formatUSD : StrOrNum → String
  | .str v => formatUSDStr v
  | .num v => formatUSDNum v

/-- JavaScript `a || b` where `a` is a possibly-undefined string and `b` a
string: the left operand is returned unless it is undefined or empty. -/
def jsOr (o : Option String) (d : String) : String :=
  match o with
  | some s => if s = "" then d else s
  | none => d

/-- JavaScript `a || b` where `a` is a possibly-undefined string and the
fallback is an arbitrary string-or-number expression. -/
def jsOrSN (o : Option String) (d : StrOrNum) : StrOrNum :=
  match o with
  | some s => if s = "" then d else .str s
  | none => d

/-- The number `cleanCurrency(x) / RATE` appearing in the USD derivation
(RATE = 4000, line 13); `none` is NaN. -/
def deriveNum (o : Option String) : Option ℚ :=
  (jsNumber (cleanCurrency o)).map (fun q => ratDiv q (ratOfNat 4000))

/-- The derived-USD string `formatUSD(cleanCurrency(x) / RATE)`. -/
def deriveUSD (o : Option String) : String :=
  formatUSD (.num (deriveNum o))

/-! ## CSV parser (src/app.js lines 74-94) -/

/-- The character scan of one line in `parseCSVText`: `cur` is the current
field buffer, the `Bool` is the `inQuotes` flag.  A quote inside quotes
followed by another quote emits one literal quote; otherwise a quote toggles
the flag; a comma outside quotes closes the field; every other character is
appended; the final buffer is always emitted. -/
def scanLine : List Char → List Char → Bool → List (List Char)
  | [], cur, _ => [cur]
  | '"' :: t, cur, false => scanLine t cur true
  | '"' :: '"' :: t2, cur, true => scanLine t2 (cur ++ ['"']) true
  | '"' :: t, cur, true => scanLine t cur false
  | ',' :: t, cur, false => cur :: scanLine t [] false
  | ',' :: t, cur, true => scanLine t (cur ++ [',']) true
  | c :: t, cur, inQ => scanLine t (cur ++ [c]) inQ

/-- Parse one CSV line into its fields. -/
def parseCSVLine (s : String) : List String :=
  (scanLine s.data [] false).map String.mk

/-- Model of `parseCSVText` (lines 74-94): split into lines, discard lines
that are blank after trimming, scan each remaining line. -/
def parseCSVText (text : String) : List (List String) :=
  ((jsSplitLines text).filter (fun l => jsTrim l != "")).map parseCSVLine

/-! ## Record mapper (src/app.js lines 107-129, 294-303) -/

/-- A book record as stored in `books`. -/
structure Book where
  name : String
  khr : String
  usd : String
deriving DecidableEq

/-- Index of the last occurrence of `k` in `l` (later `obj[h] = ...`
assignments in the `header.forEach` overwrite earlier ones). -/
def lastIdxOf (l : List String) (k : String) : Option ℕ :=
  match l.reverse.findIdx? (fun h => h == k) with
  | none => none
  | some j => some (l.length - 1 - j)

/-- The header-keyed row object built by
`header.forEach((h, idx) => obj[h] = r[idx] ? r[idx].trim() : '')`:
a key not in the header is `undefined`; a missing or empty cell is `''`;
otherwise the cell is trimmed. -/
def rowObj (header r : List String) (key : String) : Option String :=
  match lastIdxOf header key with
  | none => none
  | some i =>
    some (match r.get? i with
          | some v => if v = "" then "" else jsTrim v
          | none => "")

/-- Row-to-record mapping of the manual CSV import (lines 111-115). -/
def csvRowToBook (header r : List String) : Book :=
  { name := jsOr (rowObj header r "book title")
      (jsOr (rowObj header r "title") (jsOr (rowObj header r "name") ""))
  , khr := cleanCurrency (some (jsOr (rowObj header r "price/unit")
      (jsOr (rowObj header r "khr") (jsOr (rowObj header r "price (khr)") ""))))
  , usd := formatUSD (jsOrSN (rowObj header r "usd")
      (.num (deriveNum (rowObj header r "price/unit")))) }

/-- Row-to-record mapping of the bootstrap loader (lines 298-302): the khr
alias chain stops after `'khr'`. -/
def defaultCsvRowToBook (header r : List String) : Book :=
  { name := jsOr (rowObj header r "book title")
      (jsOr (rowObj header r "title") (jsOr (rowObj header r "name") ""))
  , khr := cleanCurrency (some (jsOr (rowObj header r "price/unit")
      (jsOr (rowObj header r "khr") "")))
  , usd := formatUSD (jsOrSN (rowObj header r "usd")
      (.num (deriveNum (rowObj header r "price/unit")))) }

/-- Row-to-record mapping of the xlsx import (lines 125-129); the sheet rows
come from the spreadsheet library keyed by natural-case headers, modelled as
an arbitrary partial map from header name to cell string. -/
def xlsxRowToBook (rx : String → Option String) : Book :=
  { name := jsOr (rx "Book Title") (jsOr (rx "Title") (jsOr (rx "name") ""))
  , khr := cleanCurrency (some (jsOr (rx "Price/Unit") (jsOr (rx "KHR") "")))
  , usd := formatUSD (jsOrSN (rx "USD")
      (match rx "Price/Unit" with
       | some p =>
         if p = "" then .str ""
         else .num ((jsNumber (String.mk (p.data.filter stripUSDChar))).map (fun q => ratDiv q (ratOfNat 4000)))
       | none => .str "")) }

/-! ## Application state and store operations -/

/-- The mutable state the claims are about: the in-memory `books` array, the
content of the persisted storage slot, and the `searchIndex` array.  An array
slot holding `undefined` (a hole created by an out-of-bounds index
assignment) is `none`. -/
structure App where
  books : List (Option Book)
  storage : List (Option Book)
  searchIndex : List (Option String)
deriving DecidableEq

/-- The state at process start: empty store, empty storage, empty index. -/
def app0 : App := ⟨[], [], []⟩

/-- The composite search string of one record (line 247):
`((b.name||'') + ' ' + (b.khr||'') + ' ' + (b.usd||'')).toLowerCase()`;
`x || ''` is the identity on strings. -/
def entryString (b : Book) : String :=
  jsToLower (b.name ++ " " ++ b.khr ++ " " ++ b.usd)

/-- Model of `saveToStorage` (lines 31-33): serialize the full sequence into
the single storage slot. -/
def saveToStorage (st : App) : App := { st with storage := st.books }

/-- Model of `buildSearchIndex` (lines 245-250); `Array.prototype.map`
preserves holes, hence `Option.map`. -/
def buildSearchIndex (st : App) : App :=
  { st with searchIndex := st.books.map (Option.map entryString) }

/-- Model of `postImportFinish` (lines 138-144): persist, then rebuild the
index (the render and input-reset steps carry no state we model). -/
def postImportFinish (st : App) : App := buildSearchIndex (saveToStorage st)

/-- The `.csv` branch of the import handler (lines 103-118).  The returned
`Option String` is the alert text shown to the user, `none` when the import
succeeds. -/
def importCSVText (txt : String) (st : App) : App × Option String :=
  match parseCSVText txt with
  | [] => (st, some "CSV is empty")
  | hd :: data =>
    let header := hd.map (fun h => jsToLower (jsTrim h))
    let mapped := data.map (csvRowToBook header)
    (postImportFinish { st with books := mapped.map some }, none)

/-- The xlsx branch of the import handler (lines 119-131). -/
def importXLSXRows (json : List (String → Option String)) (st : App) : App :=
  postImportFinish { st with books := (json.map xlsxRowToBook).map some }

/-- Plain array update at a natural index, the ECMAScript semantics of
`books[n] = entry`: in bounds it replaces; past the end it extends the array
with holes up to index `n`. -/
def jsWriteNat (l : List (Option Book)) (n : ℕ) (x : Book) : List (Option Book) :=
  if n < l.length then l.set n (some x)
  else l ++ List.replicate (n - l.length) none ++ [some x]

/-- Semantics of `books[Number(idx)] = entry`: a NaN, negative, fractional or
`≥ 2^32 - 1` numeric key is a plain property, invisible to the array part, so
the sequence is unchanged; otherwise `jsWriteNat`. -/
def jsArrayWrite (l : List (Option Book)) (n : Option ℚ) (x : Book) : List (Option Book) :=
  match n with
  | none => l
  | some q =>
    if q.den = 1 ∧ 0 ≤ q.num ∧ q.num < 4294967295 then jsWriteNat l q.num.toNat x else l

/-- Model of `saveFromModal` (lines 206-223): `idx` is the content of the
hidden edit-index field, the other arguments the raw input-field values.  An
empty name aborts with an alert; an empty `idx` prepends; otherwise the entry
is written at `Number(idx)`; then persist and rebuild the index. -/
def saveFromModal (idx nameRaw khrRaw usdRaw : String) (st : App) : App :=
  let name := jsTrim nameRaw
  if name = "" then st
  else
    let entry : Book := ⟨name, cleanCurrency (some khrRaw), formatUSDStr usdRaw⟩
    let books' :=
      if idx = "" then some entry :: st.books
      else jsArrayWrite st.books (jsNumber idx) entry
    postImportFinish { st with books := books' }

/-- Model of the confirmed path of `deleteBook` (lines 225-231):
`books.splice(i, 1)` for the natural indices the render loop produces, then
persist and rebuild (a cancelled confirm dialog leaves the state untouched). -/
def deleteBook (i : ℕ) (st : App) : App :=
  postImportFinish { st with books := st.books.eraseIdx i }

/-! ## CSV export (src/app.js lines 234-242) -/

/-- Quote-doubling of `String(c).replace(/"/g, '""')`. -/
def escQuotes : List Char → List Char
  | [] => []
  | c :: t => if c == '"' then '"' :: '"' :: escQuotes t else c :: escQuotes t

/-- One exported cell: the doubled field wrapped in quotes. -/
def fieldChars (f : String) : List Char :=
  '"' :: (escQuotes f.data ++ ['"'])

/-- Join chunks with a separator character (`Array.prototype.join`). -/
def joinBy (sep : Char) : List (List Char) → List Char
  | [] => []
  | [l] => l
  | l :: ls => l ++ sep :: joinBy sep ls

/-- One exported line. -/
def lineChars (fs : List String) : List Char :=
  joinBy ',' (fs.map fieldChars)

def headerFields : List String := ["Book Title", "Price/Unit", "USD"]

/-- Model of the export-button handler: `none` when the store is empty (the
"No data to export" alert, no file produced), otherwise the CSV text.  The
handler reads the dense record list (`b.name || ''` is the identity on the
string fields of a present record; a store containing holes would throw
inside the handler and never arises in the states considered here). -/
def exportCsv (books : List Book) : Option String :=
  if books.length = 0 then none
  else
    some (String.mk (joinBy '\n'
      ((headerFields :: books.map (fun b => [b.name, b.khr, b.usd])).map lineChars)))

/-! ## Bootstrap loader (src/app.js lines 287-313) -/

/-- Model of `loadDefaultCSV`.  `fetched` is the outcome of
`fetch('books.csv')`: `none` covers a network error, a non-OK response, and
any exception thrown later in the `try` (all of which land in the silent
`catch`), `some txt` a successful fetch of `txt`.  The function surfaces no
alert and touches no state besides `books`/`storage`. -/
def loadDefaultFromRows (rows : List (List String)) (st : App) : App :=
  match rows with
  | [] => st
  | [_] => st
  | hd :: data =>
    let header := hd.map (fun h => jsToLower (jsTrim h))
    let mapped := data.map (defaultCsvRowToBook header)
    if st.books.length = 0 then
      { st with books := mapped.map some, storage := mapped.map some }
    else st

def loadDefaultCSV (fetched : Option String) (st : App) : App :=
  match fetched with
  | none => st
  | some txt => loadDefaultFromRows (parseCSVText txt) st

/-! ## Operation sequences (for the index invariant) -/

/-- The mutating operations of the claims: manual add (`saveFromModal` with
empty index), edit (`saveFromModal` with the given index string), delete, and
the replace-all imports. -/
inductive Op where
  | add (name khr usd : String)
  | edit (idx name khr usd : String)
  | del (i : ℕ)
  | importCsv (txt : String)
  | importXlsx (json : List (String → Option String))

def applyOp (st : App) : Op → App
  | .add n k u => saveFromModal "" n k u st
  | .edit i n k u => saveFromModal i n k u st
  | .del i => deleteBook i st
  | .importCsv txt => (importCSVText txt st).1
  | .importXlsx json => importXLSXRows json st

def runOps (ops : List Op) : App :=
  ops.foldl applyOp app0

/-! ## Specification-side definitions

These follow the wording of the specification and are compared against the
code-derived definitions above. -/

/-- Alias resolution as the spec words it: try the aliases in order, take the
first present non-empty value, default to the empty string. -/
def resolveAliases (obj : String → Option String) (keys : List String) : String :=
  keys.foldr (fun k acc => jsOr (obj k) acc) ""

/-- The usd rule as the spec words it: the explicit usd column (under the
given key) when present and non-empty, otherwise a supplied derived value. -/
def usdOfKey (obj : String → Option String) (key : String) (derived : String) : String :=
  match obj key with
  | some u => if u = "" then derived else formatUSDStr u
  | none => derived

/-- Records that survive the import normalization unchanged: trimmed
line-break-free name, `cleanCurrency`-fixed line-break-free khr, and a
non-empty `formatUSD`-fixed usd. -/
def canonicalBook (b : Book) : Bool :=
  (jsTrim b.name == b.name) && !(b.name.data.contains '\n')
    && (cleanCurrency (some b.khr) == b.khr) && !(b.khr.data.contains '\n')
    && (b.usd != "") && (formatUSDStr b.usd == b.usd)

/-- Export followed by re-import through the manual CSV path. -/
def roundTripBooks (rs : List Book) : Option (List (Option Book)) :=
  (exportCsv rs).map (fun txt => (importCSVText txt app0).1.books)

/-! ## Helper lemmas: characters, digits and trimming -/

theorem mem_of_mem_removeKHR (l : List Char) (c : Char) (h : c ∈ removeKHR l) : c ∈ l := by
  induction l using removeKHR.induct with
  | case1 => simp [removeKHR] at h
  | case2 => simpa [removeKHR] using h
  | case3 => simpa [removeKHR] using h
  | case4 c1 c2 c3 t hk ih =>
    rw [removeKHR, if_pos hk] at h
    exact List.mem_cons_of_mem _ (List.mem_cons_of_mem _ (List.mem_cons_of_mem _ (ih h)))
  | case5 c1 c2 c3 t hk ih =>
    rw [removeKHR, if_neg hk] at h
    rcases List.mem_cons.mp h with h | h
    · exact h ▸ List.mem_cons_self _ _
    · exact List.mem_cons_of_mem _ (ih h)

theorem mem_of_mem_jsTrimL (l : List Char) (c : Char) (h : c ∈ jsTrimL l) : c ∈ l := by
  unfold jsTrimL at h
  rw [List.mem_reverse] at h
  have h2 := (List.dropWhile_sublist (l := (l.dropWhile isJsWs).reverse) (p := isJsWs)).subset h
  rw [List.mem_reverse] at h2
  exact (List.dropWhile_sublist (l := l) (p := isJsWs)).subset h2

theorem dropWhile_head_not_ws (l : List Char) (c : Char)
    (h : (l.dropWhile isJsWs).head? = some c) : isJsWs c = false := by
  induction l with
  | nil => simp [List.dropWhile] at h
  | cons a t ih =>
    rw [List.dropWhile_cons] at h
    by_cases ha : isJsWs a
    · rw [if_pos ha] at h; exact ih h
    · rw [if_neg ha] at h
      simp only [List.head?_cons, Option.some.injEq] at h
      subst h
      exact Bool.not_eq_true _ ▸ (by simpa using ha)

theorem dropWhile_eq_self_of_head (l : List Char) (p : Char → Bool)
    (h : ∀ c, l.head? = some c → p c = false) : l.dropWhile p = l := by
  cases l with
  | nil => rfl
  | cons a t =>
    rw [List.dropWhile_cons, h a rfl]
    simp

theorem dropWhile_ws_idem (l : List Char) :
    (l.dropWhile isJsWs).dropWhile isJsWs = l.dropWhile isJsWs := by
  apply dropWhile_eq_self_of_head
  intro c hc
  exact dropWhile_head_not_ws l c hc

/-- The end-trimming half of `jsTrimL`. -/
def trimEnd (l : List Char) : List Char := (l.reverse.dropWhile isJsWs).reverse

theorem jsTrimL_eq_trimEnd_dropWhile (l : List Char) :
    jsTrimL l = trimEnd (l.dropWhile isJsWs) := rfl

theorem trimEnd_isPrefix (l : List Char) : ∃ t, trimEnd l ++ t = l := by
  have hs : l.reverse.dropWhile isJsWs <:+ l.reverse := List.dropWhile_suffix _
  rcases hs with ⟨s, hs⟩
  refine ⟨s.reverse, ?_⟩
  have := congrArg List.reverse hs
  simpa [trimEnd, List.reverse_append] using this

theorem trimEnd_idem (l : List Char) : trimEnd (trimEnd l) = trimEnd l := by
  unfold trimEnd
  rw [List.reverse_reverse, dropWhile_ws_idem]

theorem trimEnd_head_eq (l : List Char) (h : trimEnd l ≠ []) :
    (trimEnd l).head? = l.head? := by
  rcases trimEnd_isPrefix l with ⟨t, ht⟩
  cases he : trimEnd l with
  | nil => exact absurd he h
  | cons a r => rw [← ht, he]; rfl

theorem jsTrimL_idem (l : List Char) : jsTrimL (jsTrimL l) = jsTrimL l := by
  rw [jsTrimL_eq_trimEnd_dropWhile l, jsTrimL_eq_trimEnd_dropWhile]
  have hdrop : (trimEnd (l.dropWhile isJsWs)).dropWhile isJsWs = trimEnd (l.dropWhile isJsWs) := by
    apply dropWhile_eq_self_of_head
    intro c hc
    have hne : trimEnd (l.dropWhile isJsWs) ≠ [] := by
      intro h0; rw [h0] at hc; exact absurd hc (by simp)
    have hhead : (l.dropWhile isJsWs).head? = some c := by
      rw [← trimEnd_head_eq _ hne]; exact hc
    exact dropWhile_head_not_ws l c hhead
  rw [hdrop, trimEnd_idem]

theorem jsTrim_idem (s : String) : jsTrim (jsTrim s) = jsTrim s := by
  show String.mk (jsTrimL (jsTrimL s.data)) = String.mk (jsTrimL s.data)
  rw [jsTrimL_idem]

theorem jsTrimL_eq_self_of_no_ws (l : List Char) (h : ∀ c ∈ l, isJsWs c = false) :
    jsTrimL l = l := by
  unfold jsTrimL
  have h1 : l.dropWhile isJsWs = l := by
    apply dropWhile_eq_self_of_head
    intro c hc
    exact h c (List.mem_of_mem_head? hc)
  rw [h1]
  have h2 : l.reverse.dropWhile isJsWs = l.reverse := by
    apply dropWhile_eq_self_of_head
    intro c hc
    have hm : c ∈ l.reverse := List.mem_of_mem_head? hc
    exact h c (List.mem_reverse.mp hm)
  rw [h2, List.reverse_reverse]

theorem digChar_isDigit : ∀ d, d < 10 → (digChar d).isDigit = true := by decide

theorem mem_natDigitsAux_isDigit :
    ∀ fuel n c, c ∈ natDigitsAux fuel n → c.isDigit = true := by
  intro fuel
  induction fuel with
  | zero => intro n c h; simp [natDigitsAux] at h
  | succ f ih =>
    intro n c h
    by_cases hn : n = 0
    · simp [natDigitsAux, hn] at h
    · rw [natDigitsAux, if_neg hn] at h
      rcases List.mem_append.mp h with h | h
      · exact ih _ _ h
      · rcases List.mem_singleton.mp h with rfl
        exact digChar_isDigit _ (Nat.mod_lt _ (by norm_num))

theorem mem_natStr_isDigit (n : ℕ) (c : Char) (h : c ∈ (natStr n).data) :
    c.isDigit = true := by
  unfold natStr at h
  by_cases hn : n = 0
  · rw [if_pos hn] at h
    rcases List.mem_singleton.mp h with rfl
    decide
  · rw [if_neg hn] at h
    exact mem_natDigitsAux_isDigit n n c h

theorem mem_pad2_isDigit (n : ℕ) (c : Char) (h : c ∈ (pad2 n).data) :
    c.isDigit = true := by
  unfold pad2 at h
  by_cases hn : n < 10
  · rw [if_pos hn] at h
    rcases List.mem_append.mp h with h | h
    · rcases List.mem_singleton.mp h with rfl
      decide
    · exact mem_natStr_isDigit n c h
  · rw [if_neg hn] at h
    exact mem_natStr_isDigit n c h

theorem mem_toFixed2 (q : ℚ) (c : Char) (h : c ∈ (toFixed2 q).data) :
    c = '-' ∨ c = '.' ∨ c.isDigit = true := by
  unfold toFixed2 at h
  simp only [String.data_append] at h
  rcases List.mem_append.mp h with h | h
  · rcases List.mem_append.mp h with h | h
    · rcases List.mem_append.mp h with h | h
      · by_cases hq : q.num < 0
        · rw [if_pos hq] at h
          rcases List.mem_singleton.mp h with rfl
          exact Or.inl rfl
        · rw [if_neg hq] at h
          simp at h
      · exact Or.inr (Or.inr (mem_natStr_isDigit _ c h))
    · rcases List.mem_singleton.mp h with rfl
      exact Or.inr (Or.inl rfl)
  · exact Or.inr (Or.inr (mem_pad2_isDigit _ c h))

theorem ws_not_digit (c : Char) (h : c.isDigit = true) : isJsWs c = false := by
  by_contra hne
  have hws : isJsWs c = true := by
    cases hb : isJsWs c
    · exact absurd hb hne
    · rfl
  unfold isJsWs at hws
  simp only [Bool.or_eq_true, beq_iff_eq] at hws
  rcases hws with ((((((rfl | rfl) | rfl) | rfl) | rfl) | rfl) | rfl) <;> exact absurd h (by decide)

theorem pad2_length_two : ∀ n, n < 100 → (pad2 n).length = 2 := by decide

/-! ## Claim theorems -/

/-- Claim C7: `cleanCurrency` maps `undefined`/`null` to the empty string and
otherwise removes all double quotes, the case-insensitive literal `KHR` and
all commas, then trims; in particular `cleanCurrency('1,234 KHR') = '1234'`
and `cleanCurrency(undefined) = ''`.  The final conjunct checks that no
comma or quote character survives. -/
theorem c7_cleanCurrency :
    cleanCurrency none = ""
    ∧ cleanCurrency (some "1,234 KHR") = "1234"
    ∧ (∀ s : String, cleanCurrency (some s) =
        jsTrim (String.mk ((removeKHR (s.data.filter (fun c => c != '"'))).filter (fun c => c != ','))))
    ∧ (∀ s : String, ((cleanCurrency (some s)).data.all (fun c => c != ',' && c != '"')) = true) := by
  refine ⟨by decide, by decide, fun s => rfl, fun s => ?_⟩
  rw [List.all_eq_true]
  intro c hc
  have hc2 : c ∈ (removeKHR (s.data.filter (fun c => c != '"'))).filter (fun c => c != ',') :=
    mem_of_mem_jsTrimL _ c hc
  rcases List.mem_filter.mp hc2 with ⟨hmem, hcomma⟩
  have hq : c ∈ s.data.filter (fun c => c != '"') := mem_of_mem_removeKHR _ c hmem
  rcases List.mem_filter.mp hq with ⟨_, hquote⟩
  rw [Bool.and_eq_true]
  exact ⟨hcomma, hquote⟩

/-- Claim C8: `formatUSD` strips everything but digits, `.` and `-`, parses
the rest as a float, returns the empty string when the parse is NaN and
otherwise the value with exactly two decimal digits; on the rate-4000
derivation path input `'1234'` gives `'0.31'`. -/
theorem c8_formatUSD :
    formatUSDStr "abc" = ""
    ∧ deriveUSD (some "1234") = "0.31"
    ∧ (∀ s : String, formatUSDStr s =
        (match jsParseFloatStripped (s.data.filter stripUSDChar) with
         | none => ""
         | some q => toFixed2 q))
    ∧ (∀ q : ℚ, ∃ pre post : String, toFixed2 q = pre ++ "." ++ post
        ∧ post.length = 2 ∧ post.data.all Char.isDigit = true) := by
  refine ⟨by decide, by decide, fun s => rfl, fun q => ?_⟩
  refine ⟨(if q.num < 0 then "-" else "") ++ natStr (cents q / 100), pad2 (cents q % 100), rfl, ?_, ?_⟩
  · exact pad2_length_two _ (Nat.mod_lt _ (by norm_num))
  · rw [List.all_eq_true]
    intro c hc
    exact mem_pad2_isDigit _ c hc

theorem scanLine_length_pos (l cur inQ) : 1 ≤ (scanLine l cur inQ).length := by
  induction l, cur, inQ using scanLine.induct <;> simp [scanLine, *]

/-- Claim C4: `parseCSVText` splits on bare or CR-prefixed line endings,
drops blank-after-trim lines, scans each remaining line with the quote-aware
field scanner, and always emits the final field, so every row has at least
one field. -/
theorem c4_parse_shape (text : String) :
    parseCSVText text = ((jsSplitLines text).filter (fun l => jsTrim l != "")).map parseCSVLine
    ∧ ∀ row ∈ parseCSVText text, 1 ≤ row.length := by
  refine ⟨rfl, ?_⟩
  intro row hrow
  unfold parseCSVText at hrow
  rcases List.mem_map.mp hrow with ⟨l, _, rfl⟩
  unfold parseCSVLine
  rw [List.length_map]
  exact scanLine_length_pos _ _ _

/-- Witness for C4 at the concrete file `"a,b"`. -/
theorem c4_witness :
    (["a", "b"] : List String) ∈ parseCSVText "a,b" ∧ 1 ≤ (["a", "b"] : List String).length :=
  ⟨by decide, (c4_parse_shape "a,b").2 ["a", "b"] (by decide)⟩

/-- The search index is exactly the image of the store. -/
def indexInv (st : App) : Prop :=
  st.searchIndex = st.books.map (Option.map entryString)

theorem indexInv_postImportFinish (st : App) : indexInv (postImportFinish st) := rfl

theorem indexInv_applyOp (st : App) (op : Op) (h : indexInv st) : indexInv (applyOp st op) := by
  cases op with
  | add n k u =>
    show indexInv (saveFromModal "" n k u st)
    unfold saveFromModal
    by_cases hn : jsTrim n = ""
    · rw [if_pos hn]; exact h
    · rw [if_neg hn]; exact indexInv_postImportFinish _
  | edit i n k u =>
    show indexInv (saveFromModal i n k u st)
    unfold saveFromModal
    by_cases hn : jsTrim n = ""
    · rw [if_pos hn]; exact h
    · rw [if_neg hn]; exact indexInv_postImportFinish _
  | del i => exact indexInv_postImportFinish _
  | importCsv txt =>
    show indexInv (importCSVText txt st).1
    unfold importCSVText
    cases hp : parseCSVText txt with
    | nil => exact h
    | cons hd data => exact indexInv_postImportFinish _
  | importXlsx json => exact indexInv_postImportFinish _

theorem indexInv_foldl (ops : List Op) :
    ∀ st : App, indexInv st → indexInv (ops.foldl applyOp st) := by
  induction ops with
  | nil => intro st h; exact h
  | cons op rest ih => intro st h; exact ih _ (indexInv_applyOp st op h)

/-- Claim C3: after any sequence of add, edit, delete and replace-all
operations the search index has the same length as the store and entry `i`
of the index is the lowercase space-joined concatenation of the fields of
record `i`. -/
theorem c3_index_invariant (ops : List Op) :
    (runOps ops).searchIndex = (runOps ops).books.map (Option.map entryString)
    ∧ (runOps ops).searchIndex.length = (runOps ops).books.length
    ∧ ∀ i : ℕ, (runOps ops).searchIndex[i]? = ((runOps ops).books[i]?).map (Option.map entryString) := by
  have h : indexInv (runOps ops) := indexInv_foldl ops app0 rfl
  refine ⟨h, ?_, ?_⟩
  · rw [h, List.length_map]
  · intro i
    rw [h, List.getElem?_map]

/-- Claim C9: the bootstrap loader leaves the state untouched on a failed
fetch (which covers network errors, non-OK responses and thrown exceptions)
and never overwrites a non-empty store; when the store is empty and the
fetched CSV has at least two rows it installs and persists the mapped
records.  The model returns no alert value at all: the failure path is
silent by construction. -/
theorem c9_bootstrap :
    (∀ st : App, loadDefaultCSV none st = st)
    ∧ (∀ (st : App) (txt : String), st.books ≠ [] → loadDefaultCSV (some txt) st = st)
    ∧ (∀ (st : App) (txt : String) (hd : List String) (data : List (List String)),
        parseCSVText txt = hd :: data → data ≠ [] → st.books = [] →
        (loadDefaultCSV (some txt) st).books
          = (data.map (defaultCsvRowToBook (hd.map (fun h => jsToLower (jsTrim h))))).map some
        ∧ (loadDefaultCSV (some txt) st).storage
          = (data.map (defaultCsvRowToBook (hd.map (fun h => jsToLower (jsTrim h))))).map some) := by
  refine ⟨fun st => rfl, ?_, ?_⟩
  · intro st txt hb
    show loadDefaultFromRows (parseCSVText txt) st = st
    cases hp : parseCSVText txt with
    | nil => rfl
    | cons hd data =>
      cases data with
      | nil => rfl
      | cons d ds =>
        have hlen : ¬st.books.length = 0 := fun h0 => hb (List.length_eq_zero.mp h0)
        simp only [loadDefaultFromRows, if_neg hlen]
  · intro st txt hd data hp hdata hb
    show (loadDefaultFromRows (parseCSVText txt) st).books = _
      ∧ (loadDefaultFromRows (parseCSVText txt) st).storage = _
    rw [hp]
    cases data with
    | nil => exact absurd rfl hdata
    | cons d ds =>
      have hlen : st.books.length = 0 := by rw [hb]; rfl
      simp only [loadDefaultFromRows, if_pos hlen]
      constructor <;> trivial

/-- Witness for C9: a non-empty store survives a successful fetch unchanged,
and an empty store is hydrated from a two-row CSV. -/
theorem c9_witness :
    loadDefaultCSV (some "x\ny") ⟨[some ⟨"A", "", ""⟩], [], []⟩ = ⟨[some ⟨"A", "", ""⟩], [], []⟩
    ∧ (loadDefaultCSV (some "book title\nA") app0).books = [some ⟨"A", "", "0.00"⟩] := by
  constructor
  · exact c9_bootstrap.2.1 _ _ (by decide)
  · have h := c9_bootstrap.2.2 app0 "book title\nA" ["book title"] [["A"]]
      (by decide) (by decide) rfl
    rw [h.1]
    decide

/-- Claim C10: the manual import raises "CSV is empty" exactly when the file
has no non-blank line, leaving the state unchanged; a single non-blank line
(header only) is not empty: it replaces the store with the empty sequence and
persists it; the bootstrap loader instead ignores any CSV with at most one
row. -/
theorem c10_empty_csv (txt : String) (st : App) :
    ((importCSVText txt st).2 = some "CSV is empty"
      ↔ (jsSplitLines txt).filter (fun l => jsTrim l != "") = [])
    ∧ ((jsSplitLines txt).filter (fun l => jsTrim l != "") = [] →
        importCSVText txt st = (st, some "CSV is empty"))
    ∧ (∀ l0 : String, (jsSplitLines txt).filter (fun l => jsTrim l != "") = [l0] →
        importCSVText txt st = (⟨[], [], []⟩, none))
    ∧ ((parseCSVText txt).length ≤ 1 → loadDefaultCSV (some txt) st = st) := by
  have hparse : parseCSVText txt
      = ((jsSplitLines txt).filter (fun l => jsTrim l != "")).map parseCSVLine := rfl
  refine ⟨⟨?_, ?_⟩, ?_, ?_, ?_⟩
  · intro halert
    cases hp : parseCSVText txt with
    | nil =>
      rw [hparse] at hp
      exact List.map_eq_nil_iff.mp hp
    | cons hd data =>
      unfold importCSVText at halert
      rw [hp] at halert
      exact absurd halert (by simp)
  · intro hnil
    have hp : parseCSVText txt = [] := by rw [hparse, hnil]; rfl
    unfold importCSVText
    rw [hp]
  · intro hnil
    have hp : parseCSVText txt = [] := by rw [hparse, hnil]; rfl
    unfold importCSVText
    rw [hp]
  · intro l0 hone
    have hp : parseCSVText txt = [parseCSVLine l0] := by rw [hparse, hone]; rfl
    unfold importCSVText
    rw [hp]
    rfl
  · intro hlen
    show loadDefaultFromRows (parseCSVText txt) st = st
    cases hp : parseCSVText txt with
    | nil => rfl
    | cons hd data =>
      cases data with
      | nil => rfl
      | cons d ds =>
        rw [hp] at hlen
        simp at hlen

/-- Witness for C10: a whitespace-only file alerts and leaves the state
unchanged; a header-only file clears and persists the store; the bootstrap
ignores a one-row file. -/
theorem c10_witness :
    (importCSVText " \n " app0).2 = some "CSV is empty"
    ∧ importCSVText "book title,price/unit,usd" app0 = (⟨[], [], []⟩, none)
    ∧ loadDefaultCSV (some "book title,price/unit,usd") app0 = app0 := by
  refine ⟨?_, ?_, ?_⟩
  · exact (c10_empty_csv " \n " app0).1.mpr (by decide)
  · exact (c10_empty_csv "book title,price/unit,usd" app0).2.2.1 "book title,price/unit,usd" (by decide)
  · exact (c10_empty_csv "book title,price/unit,usd" app0).2.2.2 (by decide)

/-- Counterexample for claim C5: the claim says `saveFromModal` with an
out-of-bounds edit index leaves the record sequence, including its length,
unchanged; but on a one-record store an edit at index 1 grows the store to
two records. -/
theorem c5_counterexample :
    (saveFromModal "1" "X" "1" "2" ⟨[some ⟨"A", "", ""⟩], [], []⟩).books
      = [some ⟨"A", "", ""⟩, some ⟨"X", "1", "2.00"⟩]
    ∧ decide ((saveFromModal "1" "X" "1" "2" ⟨[some ⟨"A", "", ""⟩], [], []⟩).books
        = ([some ⟨"A", "", ""⟩] : List (Option Book))) = false := by
  constructor <;> decide

/-- Claim C5 as amended: with a non-empty index string and a valid name,
the entry is written at `Number(idx)`; a non-negative in-range integer index
past the end grows the store to `index + 1` slots (holes in between) instead
of being a no-op; only a NaN, fractional, negative or `≥ 2^32 - 1` index
leaves the sequence unchanged. -/
theorem c5_update_semantics (st : App) (idx n k u : String)
    (hidx : idx ≠ "") (hname : jsTrim n ≠ "") :
    (saveFromModal idx n k u st).books
      = jsArrayWrite st.books (jsNumber idx) ⟨jsTrim n, cleanCurrency (some k), formatUSDStr u⟩
    ∧ (∀ (q : ℚ) (m : ℕ), jsNumber idx = some q → q.den = 1 → q.num = (m : ℤ) →
        st.books.length ≤ m → m < 4294967295 →
        (saveFromModal idx n k u st).books.length = m + 1)
    ∧ (∀ q : ℚ, jsNumber idx = some q → (q.den ≠ 1 ∨ q.num < 0) →
        (saveFromModal idx n k u st).books = st.books)
    ∧ (jsNumber idx = none → (saveFromModal idx n k u st).books = st.books) := by
  have hbooks : (saveFromModal idx n k u st).books
      = jsArrayWrite st.books (jsNumber idx) ⟨jsTrim n, cleanCurrency (some k), formatUSDStr u⟩ := by
    simp only [saveFromModal, if_neg hname, if_neg hidx]
    rfl
  refine ⟨hbooks, ?_, ?_, ?_⟩
  · intro q m hq hden hnum hle hlt
    rw [hbooks, hq]
    simp only [jsArrayWrite]
    have hcond : q.den = 1 ∧ 0 ≤ q.num ∧ q.num < 4294967295 := by
      refine ⟨hden, ?_, ?_⟩
      · rw [hnum]; exact Int.natCast_nonneg m
      · rw [hnum]; exact_mod_cast hlt
    rw [if_pos hcond]
    simp only [jsWriteNat]
    have htn : q.num.toNat = m := by rw [hnum]; exact Int.toNat_natCast m
    rw [htn, if_neg (by omega)]
    simp only [List.length_append, List.length_replicate, List.length_cons, List.length_nil]
    omega
  · intro q hq hbad
    rw [hbooks, hq]
    simp only [jsArrayWrite]
    have hncond : ¬(q.den = 1 ∧ 0 ≤ q.num ∧ q.num < 4294967295) := by
      rintro ⟨h1, h2, _⟩
      rcases hbad with hbad | hbad
      · exact hbad h1
      · omega
    rw [if_neg hncond]
  · intro hq
    rw [hbooks, hq]
    rfl

/-- Witness for C5 (amended): index "5" on a one-record store grows the
store to six slots. -/
theorem c5_witness :
    ("5" : String) ≠ "" ∧ jsTrim "X" ≠ ""
    ∧ (saveFromModal "5" "X" "" "" ⟨[some ⟨"A", "", ""⟩], [], []⟩).books.length = 6 := by
  refine ⟨by decide, by decide, ?_⟩
  exact (c5_update_semantics ⟨[some ⟨"A", "", ""⟩], [], []⟩ "5" "X" "" ""
    (by decide) (by decide)).2.1 (ratOfNat 5) 5 (by decide) (by decide) (by decide)
    (by decide) (by decide)

/-- Counterexample for claim C6: the claim says every CSV import path,
including the bootstrap loader, resolves khr through the aliases
`price/unit`, `khr`, `price (khr)`; but the bootstrap loader never consults
`price (khr)`: a bootstrap CSV whose only price column is `price (khr)`
yields an empty khr field instead of `cleanCurrency('4000') = '4000'`. -/
theorem c6_counterexample :
    (loadDefaultCSV (some "book title,price (khr)\nA,4000") app0).books
      = [some ⟨"A", "", "0.00"⟩]
    ∧ cleanCurrency (some "4000") = "4000"
    ∧ decide ((loadDefaultCSV (some "book title,price (khr)\nA,4000") app0).books
        = [some (⟨"A", "4000", "0.00"⟩ : Book)]) = false := by
  refine ⟨by decide, by decide, by decide⟩

/-- Claim C6 as amended: the manual CSV import resolves khr through
`price/unit`, then `khr`, then `price (khr)`, first present non-empty value;
the bootstrap loader resolves only `price/unit` then `khr`; the xlsx path
resolves the natural-case `Price/Unit` then `KHR`. -/
theorem c6_khr_aliases (hd r : List String) :
    (csvRowToBook hd r).khr
      = cleanCurrency (some (resolveAliases (rowObj hd r) ["price/unit", "khr", "price (khr)"]))
    ∧ (defaultCsvRowToBook hd r).khr
      = cleanCurrency (some (resolveAliases (rowObj hd r) ["price/unit", "khr"]))
    ∧ ∀ rx : String → Option String,
        (xlsxRowToBook rx).khr = cleanCurrency (some (resolveAliases rx ["Price/Unit", "KHR"])) := by
  refine ⟨?_, ?_, fun rx => ?_⟩ <;> rfl

/-- Counterexample for claim C1: the claim says that with no explicit usd
column the usd field is derived from the value selected by the khr
header-alias resolution; but a CSV whose khr comes from the `khr` alias gets
`usd = '0.00'` (the derivation reads only `price/unit`, which is absent and
coerces to 0), not the claimed `formatUSD(cleanCurrency('4000')/4000) =
'1.00'`. -/
theorem c1_counterexample :
    (importCSVText "khr\n4000" app0).1.books = [some ⟨"", "4000", "0.00"⟩]
    ∧ deriveUSD (some "4000") = "1.00"
    ∧ decide ((importCSVText "khr\n4000" app0).1.books
        = [some (⟨"", "4000", "1.00"⟩ : Book)]) = false := by
  refine ⟨by decide, by decide, by decide⟩

/-- Claim C1 as amended: in all three import paths the usd field is
`formatUSD` of the explicit usd column when present and non-empty, and
otherwise is derived from the `price/unit` column alone (not from the
resolved khr alias): the CSV and bootstrap paths compute
`cleanCurrency(obj['price/unit']) / 4000` (an absent column giving `'0.00'`
because the empty string coerces to 0), and the xlsx path computes
`Number(strip(r['Price/Unit'])) / 4000` when `Price/Unit` is non-empty and
the empty string otherwise. -/
theorem formatUSDStr_empty : formatUSDStr "" = "" := by decide

theorem c1_usd_derivation (hd r : List String) :
    (csvRowToBook hd r).usd
      = usdOfKey (rowObj hd r) "usd" (deriveUSD (rowObj hd r "price/unit"))
    ∧ (defaultCsvRowToBook hd r).usd
      = usdOfKey (rowObj hd r) "usd" (deriveUSD (rowObj hd r "price/unit"))
    ∧ ∀ rx : String → Option String,
        (xlsxRowToBook rx).usd
          = usdOfKey rx "USD"
              (match rx "Price/Unit" with
               | some p =>
                 if p = "" then ""
                 else formatUSDNum ((jsNumber (String.mk (p.data.filter stripUSDChar))).map
                   (fun q => ratDiv q (ratOfNat 4000)))
               | none => "") := by
  refine ⟨?_, ?_, fun rx => ?_⟩
  · show formatUSD (jsOrSN (rowObj hd r "usd") (.num (deriveNum (rowObj hd r "price/unit")))) = _
    cases h : rowObj hd r "usd" with
    | none => simp [jsOrSN, usdOfKey, h, deriveUSD, formatUSD]
    | some v =>
      by_cases hv : v = "" <;> simp [jsOrSN, usdOfKey, h, hv, deriveUSD, formatUSD]
  · show formatUSD (jsOrSN (rowObj hd r "usd") (.num (deriveNum (rowObj hd r "price/unit")))) = _
    cases h : rowObj hd r "usd" with
    | none => simp [jsOrSN, usdOfKey, h, deriveUSD, formatUSD]
    | some v =>
      by_cases hv : v = "" <;> simp [jsOrSN, usdOfKey, h, hv, deriveUSD, formatUSD]
  · show (xlsxRowToBook rx).usd = _
    unfold xlsxRowToBook
    cases hU : rx "USD" with
    | none =>
      cases hP : rx "Price/Unit" with
      | none => simp [jsOrSN, usdOfKey, hU, hP, formatUSD, formatUSDStr_empty]
      | some p =>
        by_cases hp : p = "" <;> simp [jsOrSN, usdOfKey, hU, hP, hp, formatUSD, formatUSDStr_empty]
    | some v =>
      cases hP : rx "Price/Unit" with
      | none =>
        by_cases hv : v = "" <;> simp [jsOrSN, usdOfKey, hU, hP, hv, formatUSD, formatUSDStr_empty]
      | some p =>
        by_cases hv : v = ""
        · by_cases hp : p = "" <;>
            simp [jsOrSN, usdOfKey, hU, hP, hv, hp, formatUSD, formatUSDStr_empty]
        · simp [jsOrSN, usdOfKey, hU, hP, hv, formatUSD, formatUSDStr_empty]


/-! ## Round-trip lemmas (export then re-import) -/

theorem scanLine_open (t cur) : scanLine ('"' :: t) cur false = scanLine t cur true := by
  cases t with
  | nil => rfl
  | cons c rs =>
    by_cases hc : c = '"'
    · subst hc; rfl
    · simp only [scanLine]

theorem scanLine_close (t cur) (h : t.head? ≠ some '"') :
    scanLine ('"' :: t) cur true = scanLine t cur false := by
  exact scanLine.eq_4 cur t (fun t2 ht => h (by rw [ht]; rfl))

theorem scanLine_escape (t2 cur) :
    scanLine ('"' :: '"' :: t2) cur true = scanLine t2 (cur ++ ['"']) true := rfl

theorem scanLine_comma_false (t cur) :
    scanLine (',' :: t) cur false = cur :: scanLine t [] false := rfl

theorem scanLine_comma_true (t cur) :
    scanLine (',' :: t) cur true = scanLine t (cur ++ [',']) true := rfl

theorem scanLine_other (c : Char) (t cur : List Char) (inQ : Bool)
    (h1 : c ≠ '"') (h2 : c ≠ ',') :
    scanLine (c :: t) cur inQ = scanLine t (cur ++ [c]) inQ := by
  exact scanLine.eq_7 cur inQ c t
    (fun hc _ => h1 hc) (fun _ hc _ _ => h1 hc) (fun hc _ => h1 hc)
    (fun hc _ => h2 hc) (fun hc _ => h2 hc)

theorem scanLine_escQuotes (f : List Char) (rest cur : List Char) (h : rest.head? ≠ some '"') :
    scanLine (escQuotes f ++ '"' :: rest) cur true = scanLine rest (cur ++ f) false := by
  induction f generalizing cur with
  | nil => simpa using scanLine_close rest cur h
  | cons c f' ih =>
    by_cases hc : c = '"'
    · subst hc
      have he : escQuotes ('"' :: f') = '"' :: '"' :: escQuotes f' := by simp [escQuotes]
      rw [he]
      show scanLine ('"' :: '"' :: (escQuotes f' ++ '"' :: rest)) cur true = _
      rw [scanLine_escape, ih (cur ++ ['"'])]
      simp
    · have he : escQuotes (c :: f') = c :: escQuotes f' := by simp [escQuotes, hc]
      rw [he]
      by_cases hcm : c = ','
      · subst hcm
        show scanLine (',' :: (escQuotes f' ++ '"' :: rest)) cur true = _
        rw [scanLine_comma_true, ih (cur ++ [','])]
        simp
      · show scanLine (c :: (escQuotes f' ++ '"' :: rest)) cur true = _
        rw [scanLine_other c _ cur true hc hcm, ih (cur ++ [c])]
        simp


theorem scanLine_fields (f : String) (fs : List String) (cur : List Char) :
    scanLine (lineChars (f :: fs)) cur false = (cur ++ f.data) :: fs.map String.data := by
  induction fs generalizing f cur with
  | nil =>
    show scanLine (joinBy ',' [fieldChars f]) cur false = [cur ++ f.data]
    have hj : joinBy ',' [fieldChars f] = fieldChars f := rfl
    rw [hj]
    show scanLine ('"' :: (escQuotes f.data ++ ['"'])) cur false = [cur ++ f.data]
    rw [scanLine_open]
    have : escQuotes f.data ++ ['"'] = escQuotes f.data ++ '"' :: [] := rfl
    rw [this, scanLine_escQuotes f.data [] cur (by simp)]
    rfl
  | cons g gs ih =>
    show scanLine (joinBy ',' (fieldChars f :: fieldChars g :: gs.map fieldChars)) cur false = _
    have hj : joinBy ',' (fieldChars f :: fieldChars g :: gs.map fieldChars)
        = fieldChars f ++ ',' :: joinBy ',' (fieldChars g :: gs.map fieldChars) := rfl
    rw [hj]
    show scanLine (('"' :: (escQuotes f.data ++ ['"']))
        ++ ',' :: joinBy ',' (fieldChars g :: gs.map fieldChars)) cur false = _
    have hassoc : ('"' :: (escQuotes f.data ++ ['"']))
          ++ ',' :: joinBy ',' (fieldChars g :: gs.map fieldChars)
        = '"' :: (escQuotes f.data
            ++ '"' :: ',' :: joinBy ',' (fieldChars g :: gs.map fieldChars)) := by
      simp
    rw [hassoc, scanLine_open,
      scanLine_escQuotes f.data _ cur (by simp), scanLine_comma_false]
    have := ih g []
    show (cur ++ f.data) :: scanLine (lineChars (g :: gs)) [] false = _
    rw [this]
    simp

theorem parseCSVLine_lineChars (f : String) (fs : List String) :
    parseCSVLine (String.mk (lineChars (f :: fs))) = f :: fs := by
  unfold parseCSVLine
  show (scanLine (lineChars (f :: fs)) [] false).map String.mk = f :: fs
  rw [scanLine_fields f fs []]
  show String.mk f.data :: (fs.map String.data).map String.mk = f :: fs
  rw [List.map_map]
  have h1 : String.mk f.data = f := rfl
  have h2 : fs.map (String.mk ∘ String.data) = fs := by
    have : ∀ x ∈ fs, (String.mk ∘ String.data) x = id x := fun x _ => rfl
    rw [List.map_congr_left this, List.map_id]
  rw [h1, h2]


theorem splitLinesL_cons_other (c : Char) (t : List Char) (hc : c ≠ '\n')
    (hrn : ¬(c = '\r' ∧ t.head? = some '\n')) :
    splitLinesL (c :: t)
      = (match splitLinesL t with
         | [] => [[c]]
         | l :: ls => (c :: l) :: ls) := by
  exact splitLinesL.eq_4 c t
    (fun t1 h1 h2 => hrn ⟨h1, by rw [h2]; rfl⟩) (fun h => hc h)

theorem splitLinesL_ne_nil (l : List Char) : splitLinesL l ≠ [] := by
  cases l with
  | nil => simp [splitLinesL]
  | cons c t =>
    by_cases h3 : c = '\n'
    · subst h3
      rw [splitLinesL.eq_3]
      simp
    · by_cases h2 : c = '\r' ∧ t.head? = some '\n'
      · obtain ⟨rfl, hh⟩ := h2
        cases t with
        | nil => simp at hh
        | cons d ds =>
          have hd : d = '\n' := by simpa using hh
          subst hd
          rw [splitLinesL.eq_2]
          simp
      · rw [splitLinesL_cons_other c t h3 h2]
        cases hs : splitLinesL t <;> simp


theorem splitLinesL_append (l rest : List Char) (h1 : ('\n' : Char) ∉ l)
    (h2 : l.getLast? ≠ some '\r') :
    splitLinesL (l ++ '\n' :: rest) = l :: splitLinesL rest := by
  induction l with
  | nil =>
    show splitLinesL ('\n' :: rest) = [] :: splitLinesL rest
    exact splitLinesL.eq_3 rest
  | cons c l' ih =>
    have hc : c ≠ '\n' := fun hcn => h1 (hcn ▸ List.mem_cons_self _ _)
    have h1' : ('\n' : Char) ∉ l' := fun hm => h1 (List.mem_cons_of_mem _ hm)
    show splitLinesL (c :: (l' ++ '\n' :: rest)) = (c :: l') :: splitLinesL rest
    cases l' with
    | nil =>
      have hcr : c ≠ '\r' := by
        intro hcr
        exact h2 (by rw [hcr]; rfl)
      simp only [List.nil_append]
      rw [splitLinesL_cons_other c ('\n' :: rest) hc (fun hp => hcr hp.1)]
      rw [splitLinesL.eq_3]
    | cons c2 l'' =>
      have hc2 : c2 ≠ '\n' := fun hcn => h1' (hcn ▸ List.mem_cons_self _ _)
      have hrn : ¬(c = '\r' ∧ ((c2 :: l'') ++ '\n' :: rest).head? = some '\n') := by
        rintro ⟨_, hh⟩
        exact hc2 (by simpa using hh)
      rw [splitLinesL_cons_other c _ hc hrn]
      have h2' : (c2 :: l'').getLast? ≠ some '\r' := by
        intro hl
        apply h2
        rw [List.getLast?_cons_cons] at *
        exact hl
      rw [ih h1' h2']

theorem splitLinesL_no_nl (l : List Char) (h : ('\n' : Char) ∉ l) : splitLinesL l = [l] := by
  induction l with
  | nil => rfl
  | cons c t ih =>
    have hc : c ≠ '\n' := fun hcn => h (hcn ▸ List.mem_cons_self _ _)
    have ht : ('\n' : Char) ∉ t := fun hm => h (List.mem_cons_of_mem _ hm)
    have hrn : ¬(c = '\r' ∧ t.head? = some '\n') := by
      rintro ⟨_, hh⟩
      exact ht (List.mem_of_mem_head? hh)
    rw [splitLinesL_cons_other c t hc hrn, ih ht]

theorem splitLinesL_joinNl (lines : List (List Char)) (hne : lines ≠ [])
    (h : ∀ l ∈ lines, ('\n' : Char) ∉ l ∧ l.getLast? ≠ some '\r') :
    splitLinesL (joinBy '\n' lines) = lines := by
  induction lines with
  | nil => exact absurd rfl hne
  | cons l ls ih =>
    cases ls with
    | nil =>
      show splitLinesL l = [l]
      exact splitLinesL_no_nl l (h l (List.mem_cons_self _ _)).1
    | cons l2 ls2 =>
      show splitLinesL (l ++ '\n' :: joinBy '\n' (l2 :: ls2)) = l :: (l2 :: ls2)
      rw [splitLinesL_append l _ (h l (List.mem_cons_self _ _)).1 (h l (List.mem_cons_self _ _)).2]
      rw [ih (by simp) (fun x hx => h x (List.mem_cons_of_mem _ hx))]


theorem mem_escQuotes (l : List Char) (c : Char) (h : c ∈ escQuotes l) : c ∈ l ∨ c = '"' := by
  induction l with
  | nil => simp [escQuotes] at h
  | cons a t ih =>
    by_cases ha : a = '"'
    · subst ha
      have hq : ('"' == '"') = true := rfl
      simp only [escQuotes, hq, if_true] at h
      rcases List.mem_cons.mp h with rfl | h
      · exact Or.inr rfl
      · rcases List.mem_cons.mp h with rfl | h
        · exact Or.inr rfl
        · rcases ih h with h | h
          · exact Or.inl (List.mem_cons_of_mem _ h)
          · exact Or.inr h
    · have : (a == '"') = false := by simp [ha]
      simp only [escQuotes, this, Bool.false_eq_true, if_false] at h
      rcases List.mem_cons.mp h with rfl | h
      · exact Or.inl (List.mem_cons_self _ _)
      · rcases ih h with h | h
        · exact Or.inl (List.mem_cons_of_mem _ h)
        · exact Or.inr h

theorem mem_joinBy (sep : Char) (ls : List (List Char)) (c : Char) (h : c ∈ joinBy sep ls) :
    c = sep ∨ ∃ l ∈ ls, c ∈ l := by
  induction ls with
  | nil => simp [joinBy] at h
  | cons l ls2 ih =>
    cases ls2 with
    | nil =>
      refine Or.inr ⟨l, List.mem_cons_self _ _, ?_⟩
      simpa [joinBy] using h
    | cons l2 ls3 =>
      have hj : joinBy sep (l :: l2 :: ls3) = l ++ sep :: joinBy sep (l2 :: ls3) := rfl
      rw [hj] at h
      rcases List.mem_append.mp h with h | h
      · exact Or.inr ⟨l, List.mem_cons_self _ _, h⟩
      · rcases List.mem_cons.mp h with rfl | h
        · exact Or.inl rfl
        · rcases ih h with h | ⟨x, hx, hcx⟩
          · exact Or.inl h
          · exact Or.inr ⟨x, List.mem_cons_of_mem _ hx, hcx⟩

theorem mem_fieldChars (f : String) (c : Char) (h : c ∈ fieldChars f) :
    c ∈ f.data ∨ c = '"' := by
  unfold fieldChars at h
  rcases List.mem_cons.mp h with rfl | h
  · exact Or.inr rfl
  · rcases List.mem_append.mp h with h | h
    · exact mem_escQuotes f.data c h
    · rcases List.mem_singleton.mp h with rfl
      exact Or.inr rfl

theorem nl_not_mem_lineChars (fs : List String) (h : ∀ f ∈ fs, ('\n' : Char) ∉ f.data) :
    ('\n' : Char) ∉ lineChars fs := by
  intro hm
  rcases mem_joinBy ',' (fs.map fieldChars) '\n' hm with h1 | ⟨l, hl, hcl⟩
  · exact absurd h1 (by decide)
  · rcases List.mem_map.mp hl with ⟨f, hf, rfl⟩
    rcases mem_fieldChars f '\n' hcl with h2 | h2
    · exact h f hf h2
    · exact absurd h2 (by decide)

theorem lineChars_concat (f : String) (fs : List String) :
    ∃ l', lineChars (f :: fs) = l' ++ ['"'] := by
  induction fs generalizing f with
  | nil =>
    refine ⟨'"' :: escQuotes f.data, ?_⟩
    show fieldChars f = _
    unfold fieldChars
    simp
  | cons g gs ih =>
    rcases ih g with ⟨l', hl'⟩
    refine ⟨fieldChars f ++ ',' :: l', ?_⟩
    show fieldChars f ++ ',' :: lineChars (g :: gs) = _
    rw [hl']
    simp

theorem lineChars_getLast (f : String) (fs : List String) :
    (lineChars (f :: fs)).getLast? = some '"' := by
  rcases lineChars_concat f fs with ⟨l', hl'⟩
  rw [hl']
  exact List.getLast?_concat _

theorem quote_mem_lineChars (f : String) (fs : List String) :
    ('"' : Char) ∈ lineChars (f :: fs) := by
  cases fs with
  | nil => exact List.mem_cons_self _ _
  | cons g gs =>
    show ('"' : Char) ∈ fieldChars f ++ ',' :: lineChars (g :: gs)
    exact List.mem_append.mpr (Or.inl (List.mem_cons_self _ _))

theorem jsTrimL_ne_nil_of_mem (l : List Char) (c : Char) (hc : c ∈ l)
    (hw : isJsWs c = false) : jsTrimL l ≠ [] := by
  intro h0
  have hd : (l.dropWhile isJsWs).reverse.dropWhile isJsWs = [] := by
    have := congrArg List.reverse h0
    simpa [jsTrimL] using this
  have hall2 : ∀ x ∈ (l.dropWhile isJsWs).reverse, isJsWs x = true :=
    List.dropWhile_eq_nil_iff.mp hd
  have hall : ∀ x ∈ l.dropWhile isJsWs, isJsWs x = true := by
    intro x hx
    exact hall2 x (List.mem_reverse.mpr hx)
  have : c ∈ l.takeWhile isJsWs ++ l.dropWhile isJsWs := by
    rw [List.takeWhile_append_dropWhile]
    exact hc
  rcases List.mem_append.mp this with h | h
  · exact absurd (List.mem_takeWhile_imp h) (by rw [hw]; simp)
  · exact absurd (hall c h) (by rw [hw]; simp)

theorem strmk_bne_empty (l : List Char) (h : l ≠ []) : (String.mk l != "") = true := by
  rw [bne_iff_ne]
  intro he
  exact h (congrArg String.data he)


theorem canonical_decomp (b : Book) (h : canonicalBook b = true) :
    jsTrim b.name = b.name ∧ ('\n' : Char) ∉ b.name.data
    ∧ cleanCurrency (some b.khr) = b.khr ∧ ('\n' : Char) ∉ b.khr.data
    ∧ b.usd ≠ "" ∧ formatUSDStr b.usd = b.usd := by
  unfold canonicalBook at h
  simp only [Bool.and_eq_true, beq_iff_eq, bne_iff_ne, Bool.not_eq_true'] at h
  refine ⟨h.1.1.1.1.1, by simpa using h.1.1.1.1.2, h.1.1.1.2, by simpa using h.1.1.2, h.1.2, h.2⟩

theorem canonical_usd_toFixed (b : Book) (h : canonicalBook b = true) :
    ∃ q, b.usd = toFixed2 q := by
  rcases canonical_decomp b h with ⟨_, _, _, _, hu0, hufix⟩
  unfold formatUSDStr at hufix
  cases hp : jsParseFloatStripped (b.usd.data.filter stripUSDChar) with
  | none => rw [hp] at hufix; exact absurd hufix.symm hu0
  | some q => rw [hp] at hufix; exact ⟨q, hufix.symm⟩

theorem toFixed2_no_ws (q : ℚ) (c : Char) (hc : c ∈ (toFixed2 q).data) : isJsWs c = false := by
  rcases mem_toFixed2 q c hc with rfl | rfl | hdig
  · decide
  · decide
  · exact ws_not_digit c hdig

theorem toFixed2_no_nl (q : ℚ) : ('\n' : Char) ∉ (toFixed2 q).data := by
  intro hm
  rcases mem_toFixed2 q '\n' hm with h | h | h
  · exact absurd h (by decide)
  · exact absurd h (by decide)
  · exact absurd h (by decide)

theorem jsTrim_eq_self_of_no_ws (s : String) (h : ∀ c ∈ s.data, isJsWs c = false) :
    jsTrim s = s := by
  show String.mk (jsTrimL s.data) = s
  rw [jsTrimL_eq_self_of_no_ws s.data h]

theorem trim_fixed_of_ccfixed (k : String) (h : cleanCurrency (some k) = k) :
    jsTrim k = k := by
  have hid : jsTrim (cleanCurrency (some k)) = cleanCurrency (some k) := by
    show jsTrim (jsTrim (String.mk _)) = jsTrim (String.mk _)
    exact jsTrim_idem _
  rw [h] at hid
  exact hid


theorem csvRowToBook_canonical (b : Book) (h : canonicalBook b = true) :
    csvRowToBook ["book title", "price/unit", "usd"] [b.name, b.khr, b.usd] = b := by
  obtain ⟨htn, hnn, hck, hkn, hu0, hufix⟩ := canonical_decomp b h
  obtain ⟨q, hq⟩ := canonical_usd_toFixed b h
  have htu : jsTrim b.usd = b.usd := by
    rw [hq]
    exact jsTrim_eq_self_of_no_ws _ (toFixed2_no_ws q)
  have htk : jsTrim b.khr = b.khr := trim_fixed_of_ccfixed _ hck
  have hA : rowObj ["book title", "price/unit", "usd"] [b.name, b.khr, b.usd] "book title"
      = some (if b.name = "" then "" else jsTrim b.name) := rfl
  have hB : rowObj ["book title", "price/unit", "usd"] [b.name, b.khr, b.usd] "price/unit"
      = some (if b.khr = "" then "" else jsTrim b.khr) := rfl
  have hC : rowObj ["book title", "price/unit", "usd"] [b.name, b.khr, b.usd] "usd"
      = some (if b.usd = "" then "" else jsTrim b.usd) := rfl
  have hD : rowObj ["book title", "price/unit", "usd"] [b.name, b.khr, b.usd] "title" = none := rfl
  have hE : rowObj ["book title", "price/unit", "usd"] [b.name, b.khr, b.usd] "name" = none := rfl
  have hF : rowObj ["book title", "price/unit", "usd"] [b.name, b.khr, b.usd] "khr" = none := rfl
  have hG : rowObj ["book title", "price/unit", "usd"] [b.name, b.khr, b.usd] "price (khr)"
      = none := rfl
  unfold csvRowToBook
  rw [hA, hB, hC, hD, hE, hF, hG]
  have hname : jsOr (some (if b.name = "" then "" else jsTrim b.name))
      (jsOr none (jsOr none "")) = b.name := by
    by_cases hn : b.name = ""
    · simp [jsOr, hn]
    · simp [jsOr, hn, htn]
  have hkhr : cleanCurrency (some (jsOr (some (if b.khr = "" then "" else jsTrim b.khr))
      (jsOr none (jsOr none "")))) = b.khr := by
    by_cases hk : b.khr = ""
    · rw [hk]
      decide
    · simp only [jsOr, htk, if_neg hk]
      exact hck
  have husd : formatUSD (jsOrSN (some (if b.usd = "" then "" else jsTrim b.usd))
      (.num (deriveNum (some (if b.khr = "" then "" else jsTrim b.khr))))) = b.usd := by
    simp only [if_neg hu0, htu, jsOrSN, formatUSD]
    exact hufix
  rw [hname, hkhr, husd]


theorem reduceOption_map_some (l : List Book) : (l.map some).reduceOption = l := by
  induction l with
  | nil => rfl
  | cons b t ih => simp [List.reduceOption, ih]

/-- Claim C2 as amended: for every non-empty sequence of canonical records
(trimmed line-break-free name, `cleanCurrency`-fixed line-break-free khr,
non-empty `formatUSD`-fixed usd — exactly the shapes a previous import
produces), exporting and re-importing returns the records unchanged, and
repeating the round trip is idempotent.  An empty store exports nothing (the
"No data to export" alert), and non-canonical fields are re-normalized on
import, so the restriction is necessary. -/
theorem c2_roundtrip_canonical (rs : List Book) (hne : rs ≠ [])
    (hcanon : ∀ b ∈ rs, canonicalBook b = true) :
    roundTripBooks rs = some (rs.map some)
    ∧ (roundTripBooks rs).bind (fun bs => roundTripBooks bs.reduceOption) = roundTripBooks rs := by
  have hlen : ¬rs.length = 0 := fun h0 => hne (List.length_eq_zero.mp h0)
  have hexp : exportCsv rs = some (String.mk (joinBy '\n'
      ((headerFields :: rs.map (fun b => [b.name, b.khr, b.usd])).map lineChars))) := by
    unfold exportCsv
    rw [if_neg hlen]
  have hlinefacts : ∀ l ∈ (headerFields :: rs.map (fun b => [b.name, b.khr, b.usd])).map lineChars,
      ('\n' : Char) ∉ l ∧ l.getLast? ≠ some '\r' := by
    intro l hl
    rcases List.mem_map.mp hl with ⟨fs, hfs, rfl⟩
    rcases List.mem_cons.mp hfs with rfl | hfs
    · constructor
      · exact nl_not_mem_lineChars headerFields (by decide)
      · show (lineChars ("Book Title" :: ["Price/Unit", "USD"])).getLast? ≠ some '\r'
        rw [lineChars_getLast]
        simp
    · rcases List.mem_map.mp hfs with ⟨b, hb, rfl⟩
      obtain ⟨htn, hnn, hck, hkn, hu0, hufix⟩ := canonical_decomp b (hcanon b hb)
      obtain ⟨q, hq⟩ := canonical_usd_toFixed b (hcanon b hb)
      constructor
      · apply nl_not_mem_lineChars
        intro f hf
        rcases List.mem_cons.mp hf with rfl | hf
        · exact hnn
        · rcases List.mem_cons.mp hf with rfl | hf
          · exact hkn
          · rcases List.mem_singleton.mp hf with rfl
            rw [hq]
            exact toFixed2_no_nl q
      · show (lineChars (b.name :: [b.khr, b.usd])).getLast? ≠ some '\r'
        rw [lineChars_getLast]
        simp
  have hsplit : splitLinesL (joinBy '\n'
      ((headerFields :: rs.map (fun b => [b.name, b.khr, b.usd])).map lineChars))
      = (headerFields :: rs.map (fun b => [b.name, b.khr, b.usd])).map lineChars :=
    splitLinesL_joinNl _ (by simp) hlinefacts
  have hjs : jsSplitLines (String.mk (joinBy '\n'
      ((headerFields :: rs.map (fun b => [b.name, b.khr, b.usd])).map lineChars)))
      = ((headerFields :: rs.map (fun b => [b.name, b.khr, b.usd])).map lineChars).map String.mk := by
    unfold jsSplitLines
    rw [show (String.mk (joinBy '\n'
      ((headerFields :: rs.map (fun b => [b.name, b.khr, b.usd])).map lineChars))).data
      = joinBy '\n' ((headerFields :: rs.map (fun b => [b.name, b.khr, b.usd])).map lineChars)
      from rfl, hsplit]
  have hfil : (((headerFields :: rs.map (fun b => [b.name, b.khr, b.usd])).map lineChars).map
        String.mk).filter (fun l => jsTrim l != "")
      = ((headerFields :: rs.map (fun b => [b.name, b.khr, b.usd])).map lineChars).map
        String.mk := by
    rw [List.filter_eq_self]
    intro a ha
    rcases List.mem_map.mp ha with ⟨lc, hlc, rfl⟩
    rcases List.mem_map.mp hlc with ⟨fs, hfs, rfl⟩
    have hqm : ('"' : Char) ∈ lineChars fs := by
      rcases List.mem_cons.mp hfs with rfl | hfs
      · exact quote_mem_lineChars "Book Title" ["Price/Unit", "USD"]
      · rcases List.mem_map.mp hfs with ⟨b, hb, rfl⟩
        exact quote_mem_lineChars b.name [b.khr, b.usd]
    show (jsTrim (String.mk (lineChars fs)) != "") = true
    rw [show jsTrim (String.mk (lineChars fs)) = String.mk (jsTrimL (lineChars fs)) from rfl]
    exact strmk_bne_empty _ (jsTrimL_ne_nil_of_mem _ '"' hqm (by decide))
  have hparse : parseCSVText (String.mk (joinBy '\n'
      ((headerFields :: rs.map (fun b => [b.name, b.khr, b.usd])).map lineChars)))
      = headerFields :: rs.map (fun b => [b.name, b.khr, b.usd]) := by
    unfold parseCSVText
    rw [hjs, hfil, List.map_map, List.map_map]
    show (parseCSVLine (String.mk (lineChars ["Book Title", "Price/Unit", "USD"])))
        :: (rs.map (fun b => [b.name, b.khr, b.usd])).map (parseCSVLine ∘ String.mk ∘ lineChars)
      = _
    rw [parseCSVLine_lineChars "Book Title" ["Price/Unit", "USD"], List.map_map]
    have hcong : ∀ b ∈ rs, ((parseCSVLine ∘ String.mk ∘ lineChars) ∘ fun b => [b.name, b.khr, b.usd]) b
        = (fun b => [b.name, b.khr, b.usd]) b := by
      intro b _
      exact parseCSVLine_lineChars b.name [b.khr, b.usd]
    rw [List.map_congr_left hcong]
    rfl
  have hdr : headerFields.map (fun h => jsToLower (jsTrim h))
      = ["book title", "price/unit", "usd"] := by decide
  have himp : (importCSVText (String.mk (joinBy '\n'
      ((headerFields :: rs.map (fun b => [b.name, b.khr, b.usd])).map lineChars))) app0).1.books
      = rs.map some := by
    unfold importCSVText
    rw [hparse]
    show ((rs.map (fun b => [b.name, b.khr, b.usd])).map
        (csvRowToBook (headerFields.map (fun h => jsToLower (jsTrim h))))).map some
      = rs.map some
    rw [hdr]
    congr 1
    rw [List.map_map]
    have : ∀ b ∈ rs, (csvRowToBook ["book title", "price/unit", "usd"]
        ∘ fun b => [b.name, b.khr, b.usd]) b = id b := by
      intro b hb
      exact csvRowToBook_canonical b (hcanon b hb)
    rw [List.map_congr_left this, List.map_id]
  have hmain : roundTripBooks rs = some (rs.map some) := by
    unfold roundTripBooks
    rw [hexp]
    show some ((importCSVText (String.mk (joinBy '\n'
      ((headerFields :: rs.map (fun b => [b.name, b.khr, b.usd])).map lineChars))) app0).1.books)
      = _
    rw [himp]
  refine ⟨hmain, ?_⟩
  rw [hmain]
  show roundTripBooks ((rs.map some).reduceOption) = some (rs.map some)
  rw [reduceOption_map_some]
  exact hmain


/-- Counterexample for claim C2: the claim says export then re-import returns
every record unchanged; but a record with an empty usd field comes back with
usd `'1.00'`, re-derived from its khr field, because the empty string is
falsy in `obj['usd'] || (...)`. -/
theorem c2_counterexample :
    roundTripBooks [⟨"A", "4000", ""⟩] = some [some ⟨"A", "4000", "1.00"⟩]
    ∧ decide (roundTripBooks [⟨"A", "4000", ""⟩]
        = some ([some ⟨"A", "4000", ""⟩] : List (Option Book))) = false := by
  constructor <;> decide

/-- Witness for C2 (amended) at a concrete canonical record. -/
theorem c2_witness :
    ([(⟨"A", "4000", "1.00"⟩ : Book)] : List Book) ≠ []
    ∧ (∀ b ∈ ([⟨"A", "4000", "1.00"⟩] : List Book), canonicalBook b = true)
    ∧ roundTripBooks [⟨"A", "4000", "1.00"⟩] = some [some ⟨"A", "4000", "1.00"⟩] := by
  refine ⟨by decide, by decide, ?_⟩
  exact (c2_roundtrip_canonical [⟨"A", "4000", "1.00"⟩] (by decide) (by decide)).1

end BooksApp
